import Mathlib

/-!
Verification of the fuel streaming pipeline (`fuel/transformers/simple.py`,
`fuel/datasets/hdf5.py`, `fuel/iterator.py`).

Shallow embedding conventions:
* an example is one row across all sources, modelled as `List α`
  (one entry per source); an example stream is a `List (List α)`;
* a batch is stored the way `Batch.get_data` builds it: per-source
  columns (`data = [[] for _ in self.sources]`, then
  `source_data.append(example)`), i.e. a `List (List α)` whose outer
  index ranges over sources;
* Python `StopIteration` / `ValueError` become explicit result
  constructors; `None` requests become `Option` values.
-/

/-- Result of one `Batch.get_data` call: a stacked batch in per-source
column form together with the remaining upstream examples, or one of the
two exceptional exits of the Python code. -/
inductive BatchResult (α : Type) where
  | ok (cols : List (List α)) (rest : List (List α))
  | stopIteration
  | valueError
deriving DecidableEq

/-- `for source_data, example in zip(data, next(...)): source_data.append(example)`:
append one example, componentwise, to the per-source accumulator. -/
def zipAppend (acc : List (List α)) (ex : List α) : List (List α) :=
  (acc.zip ex).map (fun p => p.1 ++ [p.2])

/-- The `for i in range(request)` loop of `Batch.get_data`
(`fuel/transformers/simple.py`).  On upstream exhaustion: strictness 0
returns the partial batch when `data[0]` is non-empty (`break`), a
strictness above 1 raises `ValueError` when `data[0]` is non-empty, and
otherwise `StopIteration` is re-raised. -/
def batchLoop (strictness : Nat) (acc : List (List α)) :
    Nat → List (List α) → BatchResult α
  | 0, xs => .ok acc xs
  | _ + 1, [] =>
      if strictness = 0 ∧ (acc.headD []).isEmpty = false then .ok acc []
      else if 1 < strictness ∧ (acc.headD []).isEmpty = false then .valueError
      else .stopIteration
  | n + 1, e :: xs => batchLoop strictness (zipAppend acc e) n xs

/-- `Batch.get_data(request)` over an upstream example stream `xs`, for a
stream with `numSources` sources (`data = [[] for _ in self.sources]`). -/
def batchGetData (strictness numSources request : Nat)
    (xs : List (List α)) : BatchResult α :=
  batchLoop strictness (List.replicate numSources []) request xs

/-- The per-source column form of a list of examples: column `j` holds the
`j`-th field of every example.  `d` is a default only used for examples
shorter than `k`. -/
def colsOf (d : α) (k : Nat) (ys : List (List α)) : List (List α) :=
  (List.range k).map (fun j => ys.map (fun e => e.getD j d))

/-- How an epoch ended: clean exhaustion (`StopIteration`) or an error. -/
inductive EpochEnd where
  | exhausted
  | errored
deriving DecidableEq

/-- Driving `Batch.get_data` with a constant batch-size scheme `b` until a
terminating signal, collecting the produced batches.  `fuel` bounds the
number of iterations (any `fuel > xs.length` is enough to reach the
signal). -/
def runBatch (strictness b k : Nat) :
    Nat → List (List α) → List (List (List α)) × Option EpochEnd
  | 0, _ => ([], none)
  | fuel + 1, xs =>
      match batchGetData strictness k b xs with
      | .ok cols rest =>
          let r := runBatch strictness b k fuel rest
          (cols :: r.1, r.2)
      | .stopIteration => ([], some .exhausted)
      | .valueError => ([], some .errored)

/-- `izip(*data)` on per-source columns: rows while every column is
non-empty (Python `izip` truncates at the shortest iterable).  The
default `d` is only consulted for empty columns, which the guard
excludes, so the result never depends on it. -/
def izipCols (d : α) (cols : List (List α)) : List (List α) :=
  if cols.isEmpty ∨ cols.any List.isEmpty then []
  else (cols.map (fun c => c.headD d)) :: izipCols d (cols.map List.tail)
termination_by (cols.map List.length).sum
decreasing_by
  rename_i h
  rw [not_or] at h
  obtain ⟨hne, hall⟩ := h
  have key : ∀ L : List (List α), (∀ c ∈ L, c.length ≠ 0) → L ≠ [] →
      ((L.map List.tail).map List.length).sum < (L.map List.length).sum := by
    intro L
    induction L with
    | nil => exact fun _ h2 => absurd rfl h2
    | cons c cs ih =>
        intro hlen _
        simp only [List.map_cons, List.sum_cons, List.length_tail]
        rcases eq_or_ne cs [] with rfl | hcs
        · simp only [List.map_nil, List.sum_nil]
          have := hlen c (by simp)
          omega
        · have hih := ih (fun x hx => hlen x (by simp [hx])) hcs
          simp only [List.map_cons, List.sum_cons, List.length_tail] at hih ⊢
          omega
  have hne' : cols ≠ [] := by simpa [List.isEmpty_iff] using hne
  have hlen : ∀ c ∈ cols, c.length ≠ 0 := by
    intro c hc
    have hcE : ¬ c.isEmpty = true := fun hcE =>
      hall (List.any_eq_true.mpr ⟨c, hc, hcE⟩)
    simpa [List.isEmpty_iff, List.length_eq_zero] using hcE
  exact key cols hlen hne'

/-- `Unpack.get_data` run to exhaustion (`fuel/transformers/simple.py`):
`cur` is the iterator `self.data` (already unzipped into example rows,
`none` plays Python's `None`), `ups` the remaining upstream batches in
per-source column form.  When `cur` runs out it is reset to `none` and a
fresh batch is pulled and re-zipped; upstream exhaustion with no held
rows propagates, ending the run. -/
def unpackRun (d : α) :
    Option (List (List α)) → List (List (List α)) → List (List α)
  | some (r :: rs), ups => r :: unpackRun d (some rs) ups
  | some [], ups => unpackRun d none ups
  | none, [] => []
  | none, b :: rest =>
      match izipCols d b with
      | r :: rs => r :: unpackRun d (some rs) rest
      | [] => unpackRun d none rest
termination_by cur ups => (ups.length, cur.elim 0 (fun l => l.length + 1))

/-- Cutting an example stream into chunks of `b` (the batches a
strictness-0 `Batch` epoch produces, in row form). -/
def chunkList (b : Nat) : List β → List (List β)
  | [] => []
  | x :: xs => (x :: xs.take (b - 1)) :: chunkList b (xs.drop (b - 1))
termination_by xs => xs.length
decreasing_by
  simp only [List.length_cons]
  have := List.length_drop (b - 1) xs
  omega

/-- Insertion step of the argsort: place position `i` among already-sorted
positions, ordering by the requested index `key`. -/
def argsortInsert (key : Nat → Nat) (i : Nat) : List Nat → List Nat
  | [] => [i]
  | j :: rest =>
      if key i ≤ key j then i :: j :: rest else j :: argsortInsert key i rest

/-- Sorting a list of positions by `key` (insertion sort). -/
def argsortAux (key : Nat → Nat) : List Nat → List Nat
  | [] => []
  | i :: rest => argsortInsert key i (argsortAux key rest)

/-- `numpy.argsort(request)`: the positions `0 .. len(request)-1` ordered so
that `request` read along them is ascending.  (Which tie-breaking the sort
uses is irrelevant to `unsorted_fancy_index`: any sorting permutation
gives the same scattered result.) -/
def argsort (request : List Nat) : List Nat :=
  argsortAux (fun i => request.getD i 0) (List.range request.length)

/-- `data[indices] = vals` for pairwise `(index, value)` writes: the numpy
scattered assignment, as a left fold of single-position writes. -/
def scatterWrite (dst : List α) (ps : List (Nat × α)) : List α :=
  ps.foldl (fun d p => d.set p.1 p.2) dst

/-- `H5PYDataset.unsorted_fancy_index(request, indexable)`
(`fuel/datasets/hdf5.py`): for more than one requested index, argsort the
request, read `indexable` along the sorted indices, and scatter the reads
back through the sorting permutation (`data[indices] = indexable[...]`);
otherwise index directly.  `d` stands for the uninitialised contents of
`numpy.empty` and for out-of-range reads. -/
def unsorted_fancy_index (d : α) (request : List Nat) (indexable : List α) :
    List α :=
  if 1 < request.length then
    let indices := argsort request
    let vals := indices.map (fun j => indexable.getD (request.getD j 0) d)
    scatterWrite (List.replicate request.length d) (indices.zip vals)
  else
    request.map (fun i => indexable.getD i d)

/-- Result of `Padding.transform_batch` on one masked source: the padded
per-example arrays and the companion mask, or the `ValueError` for a
shape mismatch beyond the first axis. -/
inductive PadResult (α : Type) where
  | ok (padded : List (List (List α))) (mask : List (List Nat))
  | valueError
deriving DecidableEq

/-- `numpy.asarray(sample).shape` for a rectangular two-dimensional sample:
(first-axis length, length of the remaining axis).  Faithful to the code
whenever every row of the sample has the same length. -/
def sampleShape (s : List (List α)) : Nat × Nat :=
  (s.length, (s.headD []).length)

/-- The body of `Padding.transform_batch` for one source in
`mask_sources` (`fuel/transformers/simple.py`), with every sample a
rectangular two-dimensional array (`List` of equal-length rows):
compute the shapes, the first-axis lengths and their maximum, raise
`ValueError` unless all remaining axes agree, then zero-pad each sample
to the maximum length and build the 1/0 mask from the lengths.
(`max(lengths)` is Python's `max`, so the code presumes a non-empty
batch; the fold's `0` is only reached for an empty one.) -/
def padSource (zero : α) (src : List (List (List α))) : PadResult α :=
  let shapes := src.map sampleShape
  let lengths := shapes.map Prod.fst
  let maxLen := lengths.foldl max 0
  let restShape := (shapes.headD (0, 0)).snd
  if shapes.all (fun sh => sh.snd = restShape) then
    .ok
      (src.map (fun s =>
        s ++ List.replicate (maxLen - s.length) (List.replicate restShape zero)))
      (lengths.map (fun l =>
        List.replicate l 1 ++ List.replicate (maxLen - l) 0))
  else .valueError

/-- The `sources` property of `Padding`: walk the wrapped stream's sources
in order, appending `<source>_mask` right after each source that is in
`mask_sources`. -/
def paddingSources (maskSources : List String) : List String → List String
  | [] => []
  | s :: rest =>
      if s ∈ maskSources then
        s :: (s ++ "_mask") :: paddingSources maskSources rest
      else s :: paddingSources maskSources rest

/-- `Cache.get_data(request)` (`fuel/transformers/simple.py`) for one
source: when the request exceeds the buffered length, `_cache()` pulls
one upstream batch (`StopIteration` is re-raised only if the buffer is
empty, otherwise swallowed); then `cache[:request]` is served and
`cache[request:]` kept.  `none` is a propagated `StopIteration`. -/
def cacheGetData (request : Nat) (cache : List α) (ups : List (List α)) :
    Option (List α × List α × List (List α)) :=
  if cache.length < request then
    match ups with
    | b :: rest =>
        let c := cache ++ b
        some (c.take request, c.drop request, rest)
    | [] =>
        if cache.isEmpty then none
        else some (cache.take request, cache.drop request, [])
  else some (cache.take request, cache.drop request, ups)

/-- An epoch of `Cache`: serve the batch-size requests in order, stopping
at the first propagated `StopIteration`. -/
def cacheEpoch (cache : List α) (ups : List (List α)) :
    List Nat → List (List α)
  | [] => []
  | r :: rest =>
      match cacheGetData r cache ups with
      | none => []
      | some (out, c, u) => out :: cacheEpoch c u rest

/-- The length `subset.stop - subset.start` that `H5PYDataset.subsets`
computes for one source: the split's `(start, stop)` range overridden by
the user subset template where the latter is given. -/
def subsetLen (tstart tstop : Option Int) (r : Int × Int) : Int :=
  tstop.getD r.2 - tstart.getD r.1

/-- The per-source loop of the `H5PYDataset.subsets` property
(`fuel/datasets/hdf5.py`): each source's split range `(start, stop)` is
intersected with the subset template, `num_examples` is fixed by the
first source, and a later source whose `stop - start` differs raises
`ValueError("sources have different lengths")`. -/
def subsetsAux (tstart tstop : Option Int) :
    Option Int → List (Int × Int) → Except Unit (List (Int × Int))
  | _, [] => .ok []
  | num?, r :: rest =>
      let s := tstart.getD r.1
      let e := tstop.getD r.2
      let n := e - s
      let num := num?.getD n
      if num ≠ n then .error ()
      else
        match subsetsAux tstart tstop (some num) rest with
        | .ok l => .ok ((s, e) :: l)
        | .error u => .error u

/-- `H5PYDataset.subsets` over the `(start, stop)` ranges that the split
dictionary yields for the stream's sources, in source order. -/
def h5pySubsets (tstart tstop : Option Int) (ranges : List (Int × Int)) :
    Except Unit (List (Int × Int)) :=
  subsetsAux tstart tstop none ranges

/-- Modelled from the spec: `fuel/streams.py` (the `DataStream` wrapper
constructed over a dataset) is not among the sources; per the spec,
"Configuration errors (bad constructor arguments - mismatched modes,
unknown split/source, ...) - always raised immediately at construction,
never deferred", and "mismatched per-source lengths - construction
error".  Constructing a stream therefore evaluates the dataset's
`subsets` check and fails exactly when it does. -/
def dataStreamConstruct (tstart tstop : Option Int)
    (ranges : List (Int × Int)) : Except Unit (List (Int × Int)) :=
  h5pySubsets tstart tstop ranges

/-- The three request shapes accepted by the storage layer: a slice, a
list of indices, or anything else (`badReq`). -/
inductive Request where
  | sliceReq (start stop : Nat)
  | listReq (indices : List Nat)
  | badReq
deriving DecidableEq

/-- Python's `array[start:stop]` for non-negative clamped bounds. -/
def listSlice (src : List α) (start stop : Nat) : List α :=
  (src.take stop).drop start

/-- One source of `H5PYDataset._out_of_memory_get_data` with
`sort_indices=True` (`fuel/datasets/hdf5.py`), equally the shape of
`PytablesDataset.get_data`: a slice request gets the subset's `start`
added to its start and stop and is applied directly to the array; a
list request gets the offset added to every index and is read through
`unsorted_fancy_index`; any other request raises `ValueError`. -/
def outOfMemoryGetData (d : α) (subsetStart : Nat) (src : List α) :
    Request → Except Unit (List α)
  | .sliceReq start stop =>
      .ok (listSlice src (start + subsetStart) (stop + subsetStart))
  | .listReq indices =>
      .ok (unsorted_fancy_index d (indices.map (· + subsetStart)) src)
  | .badReq => .error ()

/-- The interface of the object `DataIterator` wraps
(`fuel/iterator.py`): the `batch` flag it dispatches on, the
`get_batch`/`get_example` methods it calls, the `get_data` method the
rest of the repository's streams actually provide, and `sources`. -/
structure StreamShape (β ρ : Type) where
  batch : Bool
  get_batch : Option ρ → List β
  get_example : Option ρ → List β
  get_data : Option ρ → List β
  sources : List String

/-- `DataIterator.__next__` (`fuel/iterator.py`) for one step, `req` being
the value of `next(self.request_iterator)` (`none` when there is no
request iterator): dispatches on `data_stream.batch` to `get_batch` or
`get_example`. -/
def dataIteratorNext (s : StreamShape β ρ) (req : Option ρ) : List β :=
  match req with
  | some r => if s.batch then s.get_batch (some r) else s.get_example (some r)
  | none => if s.batch then s.get_batch none else s.get_example none

/-- The `as_dict=True` return of `DataIterator.__next__`:
`dict(zip(self.data_stream.sources, data))`. -/
def dataIteratorNextDict (s : StreamShape β ρ) (req : Option ρ) :
    List (String × β) :=
  s.sources.zip (dataIteratorNext s req)

/-- A concrete stream of the kind this repository builds: only `get_data`
carries its data access (`[0]`); the `get_batch`/`get_example` slots
differ from it so that the dispatch is observable. -/
def getDataOnlyStream : StreamShape Nat Nat where
  batch := true
  get_batch := fun _ => [1]
  get_example := fun _ => [2]
  get_data := fun _ => [0]
  sources := ["features"]

/-- The `on_non_existent` policy of `Rename`
(`fuel/transformers/simple.py`). -/
inductive OnNonExistent where
  | raiseErr
  | ignore
  | warn
deriving DecidableEq

/-- `sources_lookup = {n: i for i, n in enumerate(sources)}`, built once
from the wrapped stream's sources. -/
def sourcesLookup (streamSources : List String) (name : String) :
    Option Nat :=
  if name ∈ streamSources then some (streamSources.indexOf name) else none

/-- The `for old, new in iteritems(names)` loop of `Rename.__init__`:
a new name colliding with an untouched existing source raises `KeyError`
when the old name is usable; an old name the stream does not provide
raises under the `raise` policy and is merely logged (at WARNING or
DEBUG severity) under `warn`/`ignore`; otherwise the source is renamed
in place. -/
def renameLoop (lookup : String → Option Nat)
    (namesKeys usableKeys : List String) (policy : OnNonExistent) :
    List (String × String) → List String → Except Unit (List String)
  | [], sources => .ok sources
  | (old, new) :: rest, sources =>
      if (lookup new).isSome ∧ new ∉ namesKeys ∧ old ∈ usableKeys then
        .error ()
      else
        match lookup old with
        | none =>
            if policy = .raiseErr then .error ()
            else renameLoop lookup namesKeys usableKeys policy rest sources
        | some idx =>
            renameLoop lookup namesKeys usableKeys policy rest
              (sources.set idx new)

/-- `Rename.__init__` (`fuel/transformers/simple.py`): names whose keys
the stream provides (`usable_names`) must map to pairwise distinct new
names (`KeyError` otherwise); then the rename loop computes the
resulting sources tuple under the given `on_non_existent` policy. -/
def renameSources (streamSources : List String)
    (names : List (String × String)) (policy : OnNonExistent) :
    Except Unit (List String) :=
  let usable := names.filter (fun p => p.1 ∈ streamSources)
  if (usable.map Prod.snd).dedup.length ≠ usable.length then .error ()
  else
    renameLoop (sourcesLookup streamSources) (names.map Prod.fst)
      (usable.map Prod.fst) policy names streamSources

/-- `Rename.transform_any` returns the data unchanged; the constructed
policy is part of the object's state but unused by the transform. -/
def renameTransformAny (_policy : OnNonExistent) (data : List β) : List β :=
  data

theorem colsOf_nil (d : α) (k : Nat) :
    colsOf d k [] = List.replicate k [] := by
  apply List.eq_replicate_iff.2
  refine ⟨by simp [colsOf], ?_⟩
  intro b hb
  simp only [colsOf, List.map_nil, List.mem_map] at hb
  obtain ⟨j, _, hj⟩ := hb
  exact hj.symm

theorem getD_range_self (d : α) (e : List α) :
    (List.range e.length).map (fun j => e.getD j d) = e := by
  apply List.ext_getElem (by simp)
  intro i h1 h2
  simp only [List.getElem_map, List.getElem_range]
  exact List.getD_eq_getElem e d h2

theorem zipAppend_colsOf (d : α) (k : Nat) (ps : List (List α))
    (ex : List α) (hex : ex.length = k) :
    zipAppend (colsOf d k ps) ex = colsOf d k (ps ++ [ex]) := by
  apply List.ext_getElem
  · simp [zipAppend, colsOf, hex]
  · intro j h1 h2
    have hjk : j < k := by simpa [zipAppend, colsOf, hex] using h1
    simp only [zipAppend, colsOf, List.getElem_map, List.getElem_zip,
      List.getElem_range, List.map_append, List.map_cons, List.map_nil]
    congr 1
    simp only [List.getD, List.get?_eq_getElem?,
      List.getElem?_eq_getElem (show j < ex.length by omega), Option.getD_some]

theorem colsOf_headD_isEmpty (d : α) (k : Nat) (hk : 1 ≤ k)
    (ps : List (List α)) :
    ((colsOf d k ps).headD []).isEmpty = ps.isEmpty := by
  obtain ⟨m, rfl⟩ : ∃ m, k = m + 1 := ⟨k - 1, by omega⟩
  simp only [colsOf, List.range_succ_eq_map, List.map_cons, List.headD_cons]
  cases ps <;> simp

theorem batchLoop_char (d : α) (k s : Nat) (hk : 1 ≤ k) :
    ∀ (n : Nat) (ps xs : List (List α)), (∀ e ∈ xs, e.length = k) →
    batchLoop s (colsOf d k ps) n xs =
      if n ≤ xs.length then
        .ok (colsOf d k (ps ++ xs.take n)) (xs.drop n)
      else if ps.isEmpty ∧ xs.isEmpty then .stopIteration
      else if s = 0 then .ok (colsOf d k (ps ++ xs)) []
      else if s = 1 then .stopIteration
      else .valueError := by
  intro n
  induction n with
  | zero =>
      intro ps xs _
      simp [batchLoop]
  | succ n ih =>
      intro ps xs hu
      cases xs with
      | nil =>
          simp only [batchLoop, colsOf_headD_isEmpty d k hk]
          rcases eq_or_ne ps [] with rfl | hps
          · simp
          · have hpe : ps.isEmpty = false := by
              simp [List.isEmpty_iff, hps]
            rcases s with _ | _ | s <;> simp [hpe]
      | cons e xs' =>
          have he : e.length = k := hu e (by simp)
          have hu' : ∀ x ∈ xs', x.length = k := fun x hx => hu x (by simp [hx])
          simp only [batchLoop]
          rw [zipAppend_colsOf d k ps e he, ih (ps ++ [e]) xs' hu']
          have hne : (ps ++ [e]).isEmpty = false := by simp
          by_cases hn : n ≤ xs'.length
          · have hn1 : n + 1 ≤ (e :: xs').length := by
              simp only [List.length_cons]; omega
            simp [hn, hn1, List.take_succ_cons, List.drop_succ_cons,
              List.append_assoc]
          · have hn1 : ¬ n + 1 ≤ (e :: xs').length := by
              simp only [List.length_cons]; omega
            simp [hn, hn1, hne, List.append_assoc]

theorem batchGetData_char (d : α) (k s request : Nat) (hk : 1 ≤ k)
    (xs : List (List α)) (hu : ∀ e ∈ xs, e.length = k) :
    batchGetData s k request xs =
      if request ≤ xs.length then
        .ok (colsOf d k (xs.take request)) (xs.drop request)
      else if xs.isEmpty then .stopIteration
      else if s = 0 then .ok (colsOf d k xs) []
      else if s = 1 then .stopIteration
      else .valueError := by
  rw [batchGetData, show (List.replicate k ([] : List α)) = colsOf d k []
      from (colsOf_nil d k).symm,
    batchLoop_char d k s hk request [] xs hu]
  simp only [List.isEmpty_nil]
  split_ifs <;> simp_all

theorem batchGetData_zero_cons (d : α) (k b : Nat) (hk : 1 ≤ k)
    (x : List α) (xs' : List (List α))
    (hu : ∀ e ∈ x :: xs', e.length = k) :
    batchGetData 0 k b (x :: xs') =
      .ok (colsOf d k ((x :: xs').take b)) ((x :: xs').drop b) := by
  rw [batchGetData_char d k 0 b hk _ hu]
  by_cases hb : b ≤ (x :: xs').length
  · rw [if_pos hb]
  · have hlen : (x :: xs').length ≤ b := by omega
    rw [if_neg hb, List.take_of_length_le hlen, List.drop_eq_nil_of_le hlen]
    simp

theorem runBatch_zero_spec (d : α) (b k : Nat) (hb : 1 ≤ b) (hk : 1 ≤ k) :
    ∀ (fuel : Nat) (xs : List (List α)), (∀ e ∈ xs, e.length = k) →
    xs.length < fuel →
    runBatch 0 b k fuel xs =
      ((chunkList b xs).map (colsOf d k), some .exhausted) := by
  intro fuel
  induction fuel with
  | zero => intro xs _ h; omega
  | succ fuel ih =>
      intro xs hu hlen
      cases xs with
      | nil =>
          have hb0 : b ≠ 0 := by omega
          simp only [runBatch, batchGetData_char d k 0 b hk [] (by simp)]
          simp [hb0, chunkList]
      | cons x xs' =>
          simp only [runBatch,
            batchGetData_zero_cons d k b hk x xs' hu]
          obtain ⟨m, rfl⟩ : ∃ m, b = m + 1 := ⟨b - 1, by omega⟩
          have hrec := ih (xs'.drop m)
            (fun e he => hu e (by simp [List.mem_of_mem_drop he]))
            (by have := List.length_drop m xs'
                simp only [List.length_cons] at hlen
                omega)
          simp only [List.take_succ_cons, List.drop_succ_cons, hrec]
          rw [chunkList]
          simp

theorem chunkList_flatten (b : Nat) (hb : 1 ≤ b) :
    ∀ xs : List β, (chunkList b xs).flatten = xs := by
  suffices H : ∀ (n : Nat) (xs : List β), xs.length ≤ n →
      (chunkList b xs).flatten = xs from fun xs => H xs.length xs le_rfl
  intro n
  induction n with
  | zero =>
      intro xs h
      have hnil : xs = [] := List.length_eq_zero.mp (by omega)
      subst hnil
      simp [chunkList]
  | succ n ih =>
      intro xs h
      cases xs with
      | nil => simp [chunkList]
      | cons x xs' =>
          rw [chunkList]
          simp only [List.flatten_cons]
          rw [ih (xs'.drop (b - 1))
            (by have := List.length_drop (b - 1) xs'
                simp only [List.length_cons] at h
                omega)]
          simp [List.take_append_drop]

theorem izipCols_colsOf (d : α) (k : Nat) (hk : 1 ≤ k) :
    ∀ ys : List (List α), (∀ e ∈ ys, e.length = k) →
    izipCols d (colsOf d k ys) = ys := by
  intro ys
  induction ys with
  | nil =>
      intro _
      obtain ⟨m, rfl⟩ : ∃ m, k = m + 1 := ⟨k - 1, by omega⟩
      rw [izipCols]
      simp [colsOf_nil, List.replicate_succ]
  | cons e ys' ih =>
      intro hu
      have he : e.length = k := hu e (by simp)
      have h1 : (colsOf d k (e :: ys')).isEmpty = false := by
        simp only [colsOf, List.isEmpty_eq_false_iff_exists_mem]
        exact ⟨ys'.map (fun x => x.getD 0 d) |>.cons (e.getD 0 d),
          List.mem_map.mpr ⟨0, List.mem_range.mpr (by omega), by simp⟩⟩
      have h2 : (colsOf d k (e :: ys')).any List.isEmpty = false := by
        rw [List.any_eq_false]
        intro c hc
        simp only [colsOf, List.mem_map, List.mem_range] at hc
        obtain ⟨j, _, rfl⟩ := hc
        simp
      rw [izipCols, if_neg (by simp [h1, h2])]
      have hheads : (colsOf d k (e :: ys')).map (fun c => c.headD d) = e := by
        simp only [colsOf, List.map_map, Function.comp_def, List.map_cons,
          List.headD_cons]
        rw [← he, getD_range_self]
      have htails : (colsOf d k (e :: ys')).map List.tail = colsOf d k ys' := by
        simp [colsOf, List.map_map, Function.comp_def]
      rw [hheads, htails, ih (fun x hx => hu x (by simp [hx]))]

theorem unpackRun_some (d : α) :
    ∀ (rs : List (List α)) (ups : List (List (List α))),
    unpackRun d (some rs) ups = rs ++ unpackRun d none ups := by
  intro rs ups
  induction rs with
  | nil => rw [unpackRun]; rfl
  | cons r rs' ih => rw [unpackRun, ih]; rfl

theorem unpackRun_cols_flatten (d : α) (k : Nat) (hk : 1 ≤ k) :
    ∀ batches : List (List (List α)),
    (∀ bt ∈ batches, ∀ e ∈ bt, e.length = k) →
    unpackRun d none (batches.map (colsOf d k)) = batches.flatten := by
  intro batches
  induction batches with
  | nil => intro _; simp [unpackRun]
  | cons bt rest ih =>
      intro hu
      have hbt : ∀ e ∈ bt, e.length = k := hu bt (by simp)
      have hrest : ∀ b2 ∈ rest, ∀ e ∈ b2, e.length = k :=
        fun b2 hb2 => hu b2 (by simp [hb2])
      simp only [List.map_cons]
      rw [unpackRun, izipCols_colsOf d k hk bt hbt]
      cases bt with
      | nil => simpa using ih hrest
      | cons r rs =>
          simp only [List.flatten_cons, List.cons_append]
          rw [unpackRun_some, ih hrest]

/-- Claim C1: for every example stream, every (positive) batch size and
every example count — including counts not divisible by the batch size,
exercising strictness 0 — running `Unpack` over the batches that
`Batch.get_data` produce yields, in order, exactly the original example
stream, and the `Batch` epoch ends in clean exhaustion
(`StopIteration`), which `Unpack` then propagates unchanged. -/
theorem claim_C1_unpack_batch_roundtrip (d : α) (b k : Nat)
    (xs : List (List α)) (hb : 1 ≤ b) (hk : 1 ≤ k)
    (hu : ∀ e ∈ xs, e.length = k) :
    unpackRun d none (runBatch 0 b k (xs.length + 1) xs).1 = xs ∧
    (runBatch 0 b k (xs.length + 1) xs).2 = some .exhausted := by
  rw [runBatch_zero_spec d b k hb hk (xs.length + 1) xs hu (Nat.lt_succ_self _)]
  have hmem : ∀ bt ∈ chunkList b xs, ∀ e ∈ bt, e.length = k := by
    intro bt hbt e he
    apply hu
    have : e ∈ (chunkList b xs).flatten := List.mem_flatten.mpr ⟨bt, hbt, he⟩
    rwa [chunkList_flatten b hb xs] at this
  refine ⟨?_, rfl⟩
  rw [show ((chunkList b xs).map (colsOf d k), some EpochEnd.exhausted).1 =
      (chunkList b xs).map (colsOf d k) from rfl]
  rw [unpackRun_cols_flatten d k hk (chunkList b xs) hmem,
    chunkList_flatten b hb xs]

theorem claim_C1_witness :
    (1 ≤ 2 ∧ 1 ≤ 1 ∧ ∀ e ∈ [[1], [2], [3]], List.length e = 1) ∧
    unpackRun 0 none (runBatch 0 2 1 4 [[1], [2], [3]]).1 = [[1], [2], [3]] ∧
    (runBatch 0 2 1 4 [[1], [2], [3]]).2 = some .exhausted :=
  ⟨⟨by decide, by decide, by decide⟩,
    claim_C1_unpack_batch_roundtrip 0 2 1 [[1], [2], [3]]
      (by decide) (by decide) (by decide)⟩

/-- Claim C2: when the upstream exhausts before `request` examples are
collected (`xs.length < n`): strictness 0 returns the partial batch if
non-empty, else signals exhaustion; strictness 1 discards the partial
batch and signals exhaustion; strictness 2 raises `ValueError` whenever
the partial batch is non-empty (and signals exhaustion otherwise). -/
theorem claim_C2_batch_strictness (d : α) (k n : Nat) (xs : List (List α))
    (hk : 1 ≤ k) (hu : ∀ e ∈ xs, e.length = k) (hlt : xs.length < n) :
    (batchGetData 0 k n xs =
      if xs.isEmpty then .stopIteration else .ok (colsOf d k xs) []) ∧
    batchGetData 1 k n xs = .stopIteration ∧
    (batchGetData 2 k n xs =
      if xs.isEmpty then .stopIteration else .valueError) := by
  have hnot : ¬ n ≤ xs.length := by omega
  refine ⟨?_, ?_, ?_⟩ <;> rw [batchGetData_char d k _ n hk xs hu, if_neg hnot]
  · by_cases hx : xs.isEmpty = true <;> simp [hx]
  · by_cases hx : xs.isEmpty = true <;> simp [hx]
  · by_cases hx : xs.isEmpty = true <;> simp [hx]

theorem claim_C2_witness :
    (1 ≤ 1 ∧ (∀ e ∈ [[5], [6]], List.length e = 1) ∧
      List.length [[5], [6]] < 3) ∧
    (batchGetData 0 1 3 [[5], [6]] = .ok [[5, 6]] [] ∧
      batchGetData 1 1 3 [[5], [6]] = .stopIteration ∧
      batchGetData 2 1 3 [[5], [6]] = .valueError) := by
  refine ⟨⟨by decide, by decide, by decide⟩, ?_⟩
  have h := claim_C2_batch_strictness (0 : Nat) 1 3 [[5], [6]]
    (by decide) (by decide) (by decide)
  refine ⟨h.1.trans (by decide), h.2.1, h.2.2.trans (by decide)⟩

theorem argsortInsert_perm (key : Nat → Nat) (i : Nat) :
    ∀ l : List Nat, List.Perm (argsortInsert key i l) (i :: l) := by
  intro l
  induction l with
  | nil => simp [argsortInsert]
  | cons j rest ih =>
      rw [argsortInsert]
      by_cases h : key i ≤ key j
      · rw [if_pos h]
      · rw [if_neg h]
        exact (ih.cons j).trans (List.Perm.swap i j rest)

theorem argsortAux_perm (key : Nat → Nat) :
    ∀ l : List Nat, List.Perm (argsortAux key l) l := by
  intro l
  induction l with
  | nil => simp [argsortAux]
  | cons i rest ih =>
      exact (argsortInsert_perm key i (argsortAux key rest)).trans (ih.cons i)

theorem argsort_perm (request : List Nat) :
    List.Perm (argsort request) (List.range request.length) :=
  argsortAux_perm _ _

theorem scatterWrite_length :
    ∀ (ps : List (Nat × α)) (dst : List α),
    (scatterWrite dst ps).length = dst.length := by
  intro ps
  induction ps with
  | nil => intro dst; rfl
  | cons p ps' ih =>
      intro dst
      rw [show scatterWrite dst (p :: ps') = scatterWrite (dst.set p.1 p.2) ps'
        from rfl, ih]
      simp

theorem scatterWrite_getElem?_notMem :
    ∀ (ps : List (Nat × α)) (dst : List α) (i : Nat),
    i ∉ ps.map Prod.fst → (scatterWrite dst ps)[i]? = dst[i]? := by
  intro ps
  induction ps with
  | nil => intro dst i _; rfl
  | cons p ps' ih =>
      intro dst i hi
      simp only [List.map_cons, List.mem_cons, not_or] at hi
      rw [show scatterWrite dst (p :: ps') = scatterWrite (dst.set p.1 p.2) ps'
        from rfl, ih _ _ hi.2, List.getElem?_set_ne (fun h => hi.1 h.symm)]

theorem scatterWrite_getElem?_mem :
    ∀ (ps : List (Nat × α)) (dst : List α) (i : Nat) (v : α),
    (ps.map Prod.fst).Nodup → (i, v) ∈ ps → i < dst.length →
    (scatterWrite dst ps)[i]? = some v := by
  intro ps
  induction ps with
  | nil => intro dst i v _ hm; exact absurd hm (by simp)
  | cons p ps' ih =>
      intro dst i v hnd hm hlt
      simp only [List.map_cons, List.nodup_cons] at hnd
      rcases List.mem_cons.mp hm with heq | htail
      · subst heq
        have hnot : i ∉ ps'.map Prod.fst := hnd.1
        rw [show scatterWrite dst ((i, v) :: ps') =
            scatterWrite (dst.set i v) ps' from rfl,
          scatterWrite_getElem?_notMem ps' _ i hnot,
          List.getElem?_set_self', List.getElem?_eq_getElem hlt]
        rfl
      · have hne : p.1 ≠ i := by
          intro hcontra
          exact hnd.1 (hcontra ▸ List.mem_map.mpr ⟨(i, v), htail, rfl⟩)
        rw [show scatterWrite dst (p :: ps') = scatterWrite (dst.set p.1 p.2) ps'
          from rfl]
        exact ih _ i v hnd.2 htail (by simpa using hlt)

theorem zip_self_map (l : List β) (g : β → γ) :
    l.zip (l.map g) = l.map (fun i => (i, g i)) := by
  induction l with
  | nil => rfl
  | cons x l' ih => simp [List.zip_cons_cons, ih]

theorem unsorted_fancy_index_spec (d : α) (request : List Nat)
    (indexable : List α) :
    unsorted_fancy_index d request indexable =
      request.map (fun i => indexable.getD i d) := by
  rw [unsorted_fancy_index]
  by_cases hlen : 1 < request.length
  · rw [if_pos hlen]
    have hperm : List.Perm (argsort request) (List.range request.length) :=
      argsort_perm request
    have hnd : (argsort request).Nodup :=
      hperm.nodup_iff.mpr (List.nodup_range _)
    have hmem : ∀ i, i ∈ argsort request ↔ i < request.length := by
      intro i
      rw [hperm.mem_iff, List.mem_range]
    show scatterWrite (List.replicate request.length d)
        ((argsort request).zip ((argsort request).map
          (fun j => indexable.getD (request.getD j 0) d))) =
      request.map (fun i => indexable.getD i d)
    rw [zip_self_map]
    apply List.ext_getElem?
    intro pos
    by_cases hpos : pos < request.length
    · have hpair : (pos, indexable.getD (request.getD pos 0) d) ∈
          (argsort request).map
            (fun i => (i, indexable.getD (request.getD i 0) d)) :=
        List.mem_map.mpr ⟨pos, (hmem pos).mpr hpos, rfl⟩
      have hfsts : ((argsort request).map
          (fun i => (i, indexable.getD (request.getD i 0) d))).map Prod.fst =
          argsort request := by
        simp [List.map_map, Function.comp_def, List.map_id']
      rw [scatterWrite_getElem?_mem _ _ pos _ (by rw [hfsts]; exact hnd)
        hpair (by simp [hpos])]
      rw [List.getElem?_map, List.getElem?_eq_getElem hpos]
      simp only [Option.map_some']
      congr 2
      rw [List.getD_eq_getElem request 0 hpos]
    · have h1 : (scatterWrite (List.replicate request.length d)
          ((argsort request).map
            (fun i => (i, indexable.getD (request.getD i 0) d)))).length =
          request.length := by
        rw [scatterWrite_length]
        simp
      rw [List.getElem?_eq_none (by rw [h1]; omega),
        List.getElem?_eq_none (by simp; omega)]
  · rw [if_neg hlen]

/-- Claim C3: for every list of indices (in any order) into an indexable
source large enough for all of them, `unsorted_fancy_index` returns
exactly the requested elements in request order — it sorts the request,
reads, and inverts the permutation with no approximation.  In particular
(see the witness) reading `[4, 1, 3]` from `[10, 20, 30, 40, 50]`
returns `[50, 20, 40]`. -/
theorem claim_C3_unsorted_fancy_index (d : α) (request : List Nat)
    (indexable : List α) (h : ∀ i ∈ request, i < indexable.length) :
    unsorted_fancy_index d request indexable =
      request.map (fun i => indexable.getD i d) :=
  unsorted_fancy_index_spec d request indexable

theorem claim_C3_witness :
    (∀ i ∈ [4, 1, 3], i < List.length [10, 20, 30, 40, 50]) ∧
    unsorted_fancy_index 0 [4, 1, 3] [10, 20, 30, 40, 50] = [50, 20, 40] :=
  ⟨by decide,
    (claim_C3_unsorted_fancy_index 0 [4, 1, 3] [10, 20, 30, 40, 50]
      (by decide)).trans (by decide)⟩

theorem foldl_max_init (l : List Nat) : ∀ a : Nat, a ≤ l.foldl max a := by
  induction l with
  | nil => intro a; exact le_rfl
  | cons x l' ih =>
      intro a
      exact le_trans (le_max_left a x) (ih (max a x))

theorem mem_le_foldl_max (l : List Nat) :
    ∀ (a x : Nat), x ∈ l → x ≤ l.foldl max a := by
  induction l with
  | nil => intro a x hx; exact absurd hx (by simp)
  | cons y l' ih =>
      intro a x hx
      rcases List.mem_cons.mp hx with rfl | hx'
      · exact le_trans (le_max_right a x) (foldl_max_init l' (max a x))
      · exact ih (max a y) x hx'

theorem getD_replicate_self (m j : Nat) (c : γ) :
    (List.replicate m c).getD j c = c := by
  by_cases h : j < m
  · rw [List.getD_eq_getElem _ c (by simpa using h)]
    simp
  · rw [List.getD_eq_default _ c (by simpa using h)]

/-- Claim C4: on a non-empty batch of rectangular samples, when every
sample agrees on all axes but the first, `Padding.transform_batch`
zero-pads each sample of the masked source to the maximum first-axis
length across the batch and produces a mask of the same length with 1
at valid and 0 at padded positions; when some sample disagrees on the
non-first axis, `ValueError` is raised. -/
theorem claim_C4_padding (zero : α) (src : List (List (List α)))
    (hne : src ≠ [])
    (hrect : ∀ s ∈ src, ∀ r ∈ s, r.length = (s.headD []).length) :
    ((∀ s ∈ src, (s.headD []).length = ((src.headD []).headD []).length) →
      ∃ padded mask, padSource zero src = .ok padded mask ∧
        padded.length = src.length ∧ mask.length = src.length ∧
        (∀ i, i < src.length →
          padded.getD i [] = src.getD i [] ++
            List.replicate ((src.map List.length).foldl max 0
                - (src.getD i []).length)
              (List.replicate ((src.headD []).headD []).length zero) ∧
          (padded.getD i []).length = (src.map List.length).foldl max 0 ∧
          (mask.getD i []).length = (src.map List.length).foldl max 0 ∧
          (∀ j, (mask.getD i []).getD j 0 =
            if j < (src.getD i []).length then 1 else 0))) ∧
    ((∃ s ∈ src, (s.headD []).length ≠ ((src.headD []).headD []).length) →
      padSource zero src = .valueError) := by
  obtain ⟨s0, rest, rfl⟩ : ∃ s0 rest, src = s0 :: rest := by
    cases src with
    | nil => exact absurd rfl hne
    | cons a l => exact ⟨a, l, rfl⟩
  clear hne hrect
  have hhead : ((s0 :: rest).headD []) = s0 := rfl
  have hfst : ∀ L : List (List (List α)),
      (L.map sampleShape).map Prod.fst = L.map List.length := by
    intro L
    simp [sampleShape, List.map_map, Function.comp_def]
  constructor
  · intro hagree
    have hall : ((s0 :: rest).map sampleShape).all
        (fun sh => sh.snd = (((s0 :: rest).map sampleShape).headD (0, 0)).snd)
        = true := by
      rw [List.all_eq_true]
      intro sh hsh
      obtain ⟨s, hs, rfl⟩ := List.mem_map.mp hsh
      simpa [sampleShape] using hagree s hs
    have hps : padSource zero (s0 :: rest) = .ok
        ((s0 :: rest).map (fun s => s ++ List.replicate
          ((((s0 :: rest).map List.length).foldl max 0) - s.length)
          (List.replicate (s0.headD []).length zero)))
        (((s0 :: rest).map List.length).map (fun l =>
          List.replicate l 1 ++ List.replicate
            ((((s0 :: rest).map List.length).foldl max 0) - l) 0)) := by
      simp only [padSource]
      rw [if_pos hall, hfst]
      rfl
    refine ⟨_, _, hps, by simp, by simp [List.map_map], ?_⟩
    intro i hi
    have hi' : i < ((s0 :: rest).map List.length).length := by simpa using hi
    have hmax : ((s0 :: rest).getD i []).length ≤
        ((s0 :: rest).map List.length).foldl max 0 := by
      apply mem_le_foldl_max
      rw [List.getD_eq_getElem _ [] hi]
      exact List.mem_map.mpr ⟨_, List.getElem_mem hi, rfl⟩
    have hpadget : ((s0 :: rest).map (fun s => s ++ List.replicate
          ((((s0 :: rest).map List.length).foldl max 0) - s.length)
          (List.replicate (s0.headD []).length zero))).getD i [] =
        (s0 :: rest).getD i [] ++ List.replicate
          ((((s0 :: rest).map List.length).foldl max 0)
            - ((s0 :: rest).getD i []).length)
          (List.replicate (s0.headD []).length zero) := by
      rw [List.getD_eq_getElem _ [] (by simpa using hi), List.getElem_map,
        List.getD_eq_getElem _ [] hi]
    have hmaskget : (((s0 :: rest).map List.length).map (fun l =>
          List.replicate l 1 ++ List.replicate
            ((((s0 :: rest).map List.length).foldl max 0) - l) 0)).getD i [] =
        List.replicate ((s0 :: rest).getD i []).length 1 ++ List.replicate
          ((((s0 :: rest).map List.length).foldl max 0)
            - ((s0 :: rest).getD i []).length) 0 := by
      rw [List.getD_eq_getElem _ [] (by simpa using hi), List.getElem_map,
        List.getElem_map, List.getD_eq_getElem _ [] hi]
    refine ⟨hpadget, ?_, ?_, ?_⟩
    · rw [hpadget]
      simp only [List.length_append, List.length_replicate]
      omega
    · rw [hmaskget]
      simp only [List.length_append, List.length_replicate]
      omega
    · intro j
      rw [hmaskget]
      by_cases hj : j < ((s0 :: rest).getD i []).length
      · rw [if_pos hj,
          List.getD_append _ _ _ _ (by simpa using hj),
          List.getD_eq_getElem _ _ (by simpa using hj)]
        simp
      · rw [if_neg hj,
          List.getD_append_right _ _ _ _ (by simpa using hj)]
        exact getD_replicate_self _ _ _
  · intro hdis
    obtain ⟨s, hs, hsne⟩ := hdis
    have hwit : ¬ ∀ sh ∈ (s0 :: rest).map sampleShape,
        sh.snd = (((s0 :: rest).map sampleShape).headD (0, 0)).snd := by
      intro hforall
      have h1 := hforall (sampleShape s) (List.mem_map.mpr ⟨s, hs, rfl⟩)
      simp only [List.map_cons, List.headD_cons, sampleShape] at h1
      exact hsne (by simpa [List.headD_cons] using h1)
    have hcond : ¬ ((((s0 :: rest).map sampleShape).all
        (fun sh => sh.snd = (((s0 :: rest).map sampleShape).headD (0, 0)).snd))
        = true) := by
      intro hc
      apply hwit
      intro sh hsh
      exact of_decide_eq_true (List.all_eq_true.mp hc sh hsh)
    simp only [padSource]
    rw [if_neg hcond]

theorem claim_C4_witness :
    padSource 0 [[[9], [8], [7]], [[6]], [[5], [4], [3], [2]]] =
      .ok [[[9], [8], [7], [0]], [[6], [0], [0], [0]], [[5], [4], [3], [2]]]
        [[1, 1, 1, 0], [1, 0, 0, 0], [1, 1, 1, 1]] ∧
    (∃ padded mask,
      padSource 0 [[[9], [8], [7]], [[6]], [[5], [4], [3], [2]]] =
        .ok padded mask ∧ padded.length = 3 ∧ mask.length = 3) := by
  refine ⟨by decide, ?_⟩
  obtain ⟨padded, mask, hok, hp, hm, _⟩ :=
    (claim_C4_padding 0 [[[9], [8], [7]], [[6]], [[5], [4], [3], [2]]]
      (by decide) (by decide)).1 (by decide)
  exact ⟨padded, mask, hok, by simpa using hp, by simpa using hm⟩

/-- Claim C5 as stated is false: with the buffer non-empty but holding
fewer items than requested (here 1 < 3) and the upstream exhausted,
`Cache.get_data` does not propagate exhaustion — it returns the partial
buffer as a short batch. -/
theorem claim_C5_counterexample :
    cacheGetData 3 [(0 : Nat)] [] = some ([0], [], []) ∧
    cacheGetData 3 [(0 : Nat)] [] ≠ none := by
  decide

/-- Claim C5 (amended): when `Cache.get_data` must refill and the
upstream is exhausted, exhaustion is propagated only if the buffer is
empty; a non-empty buffer is served as a (possibly short) batch.  The
`[2, 2, 2]` requests against upstream batches of sizes 5 and 1 yield
exactly 2, 2, 2 items matching the source data, and a further request
then propagates exhaustion. -/
theorem claim_C5_cache (α : Type) :
    (∀ (request : Nat) (cache : List α), cache.length < request →
      cacheGetData request cache [] =
        if cache.isEmpty then none else some (cache, [], [])) ∧
    cacheEpoch ([] : List Nat) [[0, 1, 2, 3, 4], [5]] [2, 2, 2] =
      [[0, 1], [2, 3], [4, 5]] ∧
    cacheGetData 2 ([] : List Nat) [] = none := by
  refine ⟨?_, by decide, by decide⟩
  intro request cache hlen
  rw [cacheGetData, if_pos hlen]
  by_cases hc : cache.isEmpty
  · rw [if_pos hc, if_pos hc]
  · rw [if_neg hc, if_neg hc,
      List.take_of_length_le (by omega), List.drop_eq_nil_of_le (by omega)]

theorem claim_C5_witness :
    (List.length [(7 : Nat)] < 3 ∧
      cacheGetData 3 [(7 : Nat)] [] = some ([7], [], [])) ∧
    cacheEpoch ([] : List Nat) [[0, 1, 2, 3, 4], [5]] [2, 2, 2] =
      [[0, 1], [2, 3], [4, 5]] :=
  ⟨⟨by decide, ((claim_C5_cache Nat).1 3 [7] (by decide)).trans (by decide)⟩,
    (claim_C5_cache Nat).2.1⟩

theorem subsetsAux_error (tstart tstop : Option Int) (m : Int) :
    ∀ ranges : List (Int × Int),
    (∃ r ∈ ranges, subsetLen tstart tstop r ≠ m) →
    subsetsAux tstart tstop (some m) ranges = .error () := by
  intro ranges
  induction ranges with
  | nil =>
      intro hex
      obtain ⟨r, hr, _⟩ := hex
      exact absurd hr (by simp)
  | cons r0 rest ih =>
      intro hex
      obtain ⟨r, hr, hne⟩ := hex
      simp only [subsetsAux]
      by_cases h0 : m ≠ tstop.getD r0.2 - tstart.getD r0.1
      · rw [if_pos (by simpa using h0)]
      · rw [if_neg (by simpa using h0)]
        have hr' : r ∈ rest := by
          rcases List.mem_cons.mp hr with rfl | h
          · exact absurd (not_ne_iff.mp h0).symm hne
          · exact h
        simp only [Option.getD_some]
        rw [ih ⟨r, hr', hne⟩]

/-- Claim C6: whenever some source of the split resolves, after
intersection with the user subset template, to a `stop - start` length
different from the first source's, the `subsets` check fails with
`ValueError` and — per the spec's construction contract, modelled by
`dataStreamConstruct` — constructing a stream over the split fails
rather than deferring the error to a data request. -/
theorem claim_C6_mismatched_lengths (tstart tstop : Option Int)
    (ranges : List (Int × Int)) (r : Int × Int) (hr : r ∈ ranges)
    (hne : subsetLen tstart tstop r ≠
      subsetLen tstart tstop (ranges.headD r)) :
    dataStreamConstruct tstart tstop ranges = .error () := by
  cases ranges with
  | nil => exact absurd hr (by simp)
  | cons r0 rest =>
      have hne0 : subsetLen tstart tstop r ≠ subsetLen tstart tstop r0 := by
        simpa using hne
      have hr' : r ∈ rest := by
        rcases List.mem_cons.mp hr with rfl | h
        · exact absurd rfl hne0
        · exact h
      rw [dataStreamConstruct, h5pySubsets]
      simp only [subsetsAux, Option.getD_none]
      rw [if_neg (by simp),
        subsetsAux_error tstart tstop (tstop.getD r0.2 - tstart.getD r0.1)
          rest ⟨r, hr', hne0⟩]

theorem claim_C6_witness :
    ((0, 4) ∈ [((0 : Int), (5 : Int)), (0, 4)] ∧
      subsetLen none none ((0 : Int), (4 : Int)) ≠
        subsetLen none none (([((0 : Int), (5 : Int)), (0, 4)]).headD (0, 4))) ∧
    dataStreamConstruct none none [((0 : Int), (5 : Int)), (0, 4)] =
      .error () :=
  ⟨⟨by decide, by decide⟩,
    claim_C6_mismatched_lengths none none [((0 : Int), (5 : Int)), (0, 4)]
      (0, 4) (by decide) (by decide)⟩

/-- Claim C7: the storage `get_data` supports exactly three request
shapes: a slice is translated by adding the subset's `start` offset to
its start and stop and applied directly; a list of indices has the
offset added to every index and the scattered read returns the elements
in request order; anything else raises `ValueError`. -/
theorem claim_C7_request_shapes (d : α) (off : Nat) (src : List α) :
    (∀ s e, outOfMemoryGetData d off src (.sliceReq s e) =
      .ok ((src.take (e + off)).drop (s + off))) ∧
    (∀ l, (∀ i ∈ l, i + off < src.length) →
      outOfMemoryGetData d off src (.listReq l) =
        .ok (l.map (fun i => src.getD (i + off) d))) ∧
    outOfMemoryGetData d off src .badReq = .error () := by
  refine ⟨fun s e => rfl, ?_, rfl⟩
  intro l _
  show Except.ok (unsorted_fancy_index d (l.map (· + off)) src) = _
  rw [unsorted_fancy_index_spec, List.map_map]
  rfl

theorem claim_C7_witness :
    outOfMemoryGetData 0 1 [10, 20, 30] (.sliceReq 0 2) = .ok [20, 30] ∧
    ((∀ i ∈ [1, 0], i + 1 < List.length [10, 20, 30]) ∧
      outOfMemoryGetData 0 1 [10, 20, 30] (.listReq [1, 0]) = .ok [30, 20]) ∧
    outOfMemoryGetData 0 1 [10, 20, 30] .badReq = .error () := by
  have h := claim_C7_request_shapes 0 1 [10, 20, 30]
  exact ⟨(h.1 0 2).trans (by rfl),
    ⟨by decide, (h.2.1 [1, 0] (by decide)).trans (by rfl)⟩, h.2.2⟩

/-- Claim C8 (code-bug evidence): `DataIterator.__next__` dispatches on
the stream's `batch` flag to `get_batch`/`get_example`; it never calls
`get_data`, so on a stream whose data access is its `get_data` method —
the only access method the repository's datasets and transformers
provide — the iterator's result differs from `get_data(request)`. -/
theorem claim_C8_iterator_dispatch :
    (∀ (β ρ : Type) (s : StreamShape β ρ) (req : Option ρ),
      dataIteratorNext s req =
        (if s.batch then s.get_batch req else s.get_example req) ∧
      dataIteratorNextDict s req =
        s.sources.zip (dataIteratorNext s req)) ∧
    dataIteratorNext getDataOnlyStream (some 5) =
      getDataOnlyStream.get_batch (some 5) ∧
    dataIteratorNext getDataOnlyStream (some 5) ≠
      getDataOnlyStream.get_data (some 5) := by
  refine ⟨?_, rfl, by decide⟩
  intro β ρ s req
  cases req <;> exact ⟨rfl, rfl⟩

theorem renameLoop_policy_irrelevant (lookup : String → Option Nat)
    (namesKeys usableKeys : List String) :
    ∀ (names : List (String × String)) (sources : List String),
    renameLoop lookup namesKeys usableKeys .ignore names sources =
      renameLoop lookup namesKeys usableKeys .warn names sources := by
  intro names
  induction names with
  | nil => intro sources; rfl
  | cons p rest ih =>
      intro sources
      obtain ⟨old, new⟩ := p
      simp only [renameLoop]
      by_cases h1 : (lookup new).isSome ∧ new ∉ namesKeys ∧ old ∈ usableKeys
      · rw [if_pos h1, if_pos h1]
      · rw [if_neg h1, if_neg h1]
        cases hl : lookup old with
        | none => simp [ih]
        | some idx => exact ih (sources.set idx new)

/-- Claim C9: constructing `Rename` with `on_non_existent='ignore'` and
with `on_non_existent='warn'` yields the same resulting sources (and
the same errors), and the data transformation is the identity either
way — the two policies differ only in log severity. -/
theorem claim_C9_rename_ignore_warn (β : Type) :
    (∀ (streamSources : List String) (names : List (String × String)),
      renameSources streamSources names .ignore =
        renameSources streamSources names .warn) ∧
    (∀ data : List β,
      renameTransformAny .ignore data = renameTransformAny .warn data) := by
  refine ⟨?_, fun _ => rfl⟩
  intro ss names
  simp only [renameSources]
  by_cases h : ((names.filter (fun p => p.1 ∈ ss)).map Prod.snd).dedup.length ≠
      (names.filter (fun p => p.1 ∈ ss)).length
  · rw [if_pos h, if_pos h]
  · rw [if_neg h, if_neg h]
    exact renameLoop_policy_irrelevant _ _ _ names ss

/-- Claim C10: in the `sources` tuple exposed by `Padding`, each
generated `<source>_mask` appears immediately after its originating
source (masks are interleaved in original order, not appended at the
end). -/
theorem claim_C10_mask_adjacent (streamSources maskSources : List String)
    (s : String) (hs : s ∈ streamSources) (hm : s ∈ maskSources) :
    ∃ i, (paddingSources maskSources streamSources)[i]? = some s ∧
      (paddingSources maskSources streamSources)[i + 1]? =
        some (s ++ "_mask") := by
  induction streamSources with
  | nil => exact absurd hs (by simp)
  | cons t rest ih =>
      rcases List.mem_cons.mp hs with rfl | hs'
      · exact ⟨0, by simp [paddingSources, hm], by simp [paddingSources, hm]⟩
      · obtain ⟨i, h1, h2⟩ := ih hs'
        by_cases ht : t ∈ maskSources
        · exact ⟨i + 2, by simp [paddingSources, ht, h1],
            by simp [paddingSources, ht, h2]⟩
        · exact ⟨i + 1, by simp [paddingSources, ht, h1],
            by simp [paddingSources, ht, h2]⟩

theorem claim_C10_witness :
    ("features" ∈ ["features", "targets"] ∧ "features" ∈ ["features"]) ∧
    ∃ i, (paddingSources ["features"] ["features", "targets"])[i]? =
        some "features" ∧
      (paddingSources ["features"] ["features", "targets"])[i + 1]? =
        some ("features" ++ "_mask") :=
  ⟨⟨by decide, by decide⟩,
    claim_C10_mask_adjacent ["features", "targets"] ["features"] "features"
      (by decide) (by decide)⟩
